import Mathlib

/-!
Verification of the repository synchronization and caching commands of
`vrc-get-gui` (`src/vrc-get-gui/src/commands/environment/packages.rs`).

The Rust code is shallowly embedded: URLs and ids are opaque strings,
the network is an explicit oracle `net : String → List (String × String) →
Except String RemoteDoc`, fallible externals (settings save, remote add,
disk cache clear) are `Except String Unit` parameters, and the concurrent
batch import is modelled as an explicit completion-order simulation over
a slot map plus an emission log.
-/

/-- One version of a package as exposed by a fetched repository document:
its (totally ordered) version key and its yanked flag. -/
structure PackageVersion where
  version : Nat
  yanked : Bool
deriving DecidableEq

/-- One named package of a repository document: the list of its versions. -/
structure RepoPackage where
  versions : List PackageVersion
deriving DecidableEq

/-- A fetched remote repository document, parseable into optional id, url,
name and a package list (spec section 6). -/
structure RemoteDoc where
  id? : Option String
  url? : Option String
  name? : Option String
  packages : List RepoPackage
deriving DecidableEq

/-- Embeds `TauriRemoteRepositoryInfo` (packages.rs lines 185-191). -/
structure TauriRemoteRepositoryInfo where
  display_name : String
  id : String
  url : String
  packages : List PackageVersion
deriving DecidableEq

/-- Embeds the outcome enum `TauriDownloadRepository` (packages.rs lines 193-200). -/
inductive TauriDownloadRepository where
  | BadUrl
  | Duplicated
  | DownloadError (message : String)
  | Success (value : TauriRemoteRepositoryInfo)
deriving DecidableEq

/-- Embeds `TauriRepositoryDescriptor` (packages.rs lines 397-401): a
pre-parsed URL plus custom headers. -/
structure TauriRepositoryDescriptor where
  url : String
  headers : List (String × String)
deriving DecidableEq

/-- One stored user repository as seen through the settings collaborator:
optional id, url, display name. -/
structure UserRepoSetting where
  id? : Option String
  url? : Option String
  name? : Option String
deriving DecidableEq

/-- The slice of the settings collaborator the commands consume:
`get_user_repos()`, `ignore_curated_repository()`, `ignore_official_repository()`. -/
structure Settings where
  user_repos : List UserRepoSetting
  ignore_curated_repository : Bool
  ignore_official_repository : Bool
deriving DecidableEq

/-- Embeds `TauriAddRepositoryResult` (packages.rs lines 317-321). -/
inductive TauriAddRepositoryResult where
  | BadUrl
  | Success
deriving DecidableEq

/-- Embeds `AddUserPackageResult` of the settings collaborator. -/
inductive AddUserPackageResult where
  | Success
  | NonAbsolute
  | BadPackage
  | AlreadyAdded
deriving DecidableEq

/-- Embeds `TauriAddUserPackageWithPickerResult` (packages.rs lines 594-600). -/
inductive TauriAddUserPackageWithPickerResult where
  | NoFolderSelected
  | InvalidSelection
  | AlreadyAdded
  | Successful
deriving DecidableEq

/-- The package cache state of `PackagesState` (spec section 4.5):
either empty or loaded at some generation. -/
inductive PackagesState where
  | empty
  | loaded (version : Nat)
deriving DecidableEq

/-- Modelled from the spec: `PackagesState::clear_cache` lives in
`crate::commands::prelude`, outside this excerpt; per spec section 4.5 it
"transitions unconditionally to `Empty`; does not itself recompute". -/
def PackagesState.clear_cache (_ : PackagesState) : PackagesState :=
  PackagesState.empty

/-- Embeds `user_repo_urls` (packages.rs lines 236-254): the URLs of all
stored user repositories that have one, plus the fixed curated / official
URLs unless their ignore flags are set. The Rust `HashSet` is modelled as a
list queried only through membership. -/
def user_repo_urls (settings : Settings) : List String :=
  (settings.user_repos.filterMap (fun x => x.url?))
    ++ (if settings.ignore_curated_repository then []
        else ["https://packages.vrchat.com/curated?download"])
    ++ (if settings.ignore_official_repository then []
        else ["https://packages.vrchat.com/official?download"])

/-- Embeds `user_repo_ids` (packages.rs lines 256-273): the ids of all
stored user repositories that have one, plus the fixed curated / official
ids unless their ignore flags are set. -/
def user_repo_ids (settings : Settings) : List String :=
  (settings.user_repos.filterMap (fun x => x.id?))
    ++ (if settings.ignore_curated_repository then []
        else ["com.vrchat.repos.curated"])
    ++ (if settings.ignore_official_repository then []
        else ["com.vrchat.repos.official"])

/-- Embeds `repo.url().unwrap_or(repository_url)` (packages.rs line 295):
the document's declared url if present, else the fetch URL. -/
def resolve_url (repo : RemoteDoc) (repository_url : String) : String :=
  repo.url?.getD repository_url

/-- Embeds `repo.id().unwrap_or(url)` (packages.rs line 296): the document's
declared id if present, else the resolved url. -/
def resolve_id (repo : RemoteDoc) (repository_url : String) : String :=
  repo.id?.getD (resolve_url repo repository_url)

/-- Embeds `repo.name().unwrap_or(id)` (packages.rs line 306): the document's
declared name if present, else the resolved id. -/
def resolve_name (repo : RemoteDoc) (repository_url : String) : String :=
  repo.name?.getD (resolve_id repo repository_url)

/-- Modelled from the spec: `PackageVersions::get_latest` with
`VersionSelector::latest_for(None, true)` lives in `vrc-get-vpm`, outside
this excerpt; per spec sections 3 and 6 the selector picks the single
latest version of the package (prerelease allowed, no Unity constraint),
with yanked-status handled by the separate filter at the call site.
Ties keep the later entry, as Rust `max_by_key` does. This is the fold step
keeping the later of the accumulated version and the next one. -/
def latestAcc (acc : Option PackageVersion) (v : PackageVersion) : Option PackageVersion :=
  match acc with
  | none => some v
  | some a => if a.version ≤ v.version then some v else some a

/-- Modelled from the spec: the latest-version selection itself (see
`latestAcc`): fold `latestAcc` over the package's versions. -/
def get_latest (p : RepoPackage) : Option PackageVersion :=
  p.versions.foldl latestAcc none

/-- Embeds the preview projection of packages.rs lines 307-312:
`get_packages().filter_map(get_latest(..)).filter(not yanked)`. -/
def previewPackages (packages : List RepoPackage) : List PackageVersion :=
  (packages.filterMap get_latest).filter (fun x => !x.yanked)

/-- Embeds `download_one_repository` (packages.rs lines 275-315). The second
component records whether the network oracle was consulted: `false` exactly
on the pre-fetch duplicate fast path. -/
def download_one_repository
    (net : String → List (String × String) → Except String RemoteDoc)
    (repository_url : String) (headers : List (String × String))
    (user_repo_urls user_repo_ids : List String) :
    TauriDownloadRepository × Bool :=
  if repository_url ∈ user_repo_urls then
    (TauriDownloadRepository.Duplicated, false)
  else
    match net repository_url headers with
    | Except.error e => (TauriDownloadRepository.DownloadError e, true)
    | Except.ok repo =>
      let url := resolve_url repo repository_url
      let id := resolve_id repo repository_url
      if id ∈ user_repo_ids then
        (TauriDownloadRepository.Duplicated, true)
      else
        (TauriDownloadRepository.Success
          { display_name := resolve_name repo repository_url
            id := id
            url := url
            packages := previewPackages repo.packages }, true)

/-- Embeds `environment_download_repository` (packages.rs lines 204-234):
parse the URL string (`parseUrl` stands for `str::parse::<Url>`), returning
`BadUrl` on failure, else delegate to `download_one_repository` against the
known-URL / known-id sets. The second component records network use. -/
def environment_download_repository
    (parseUrl : String → Option String)
    (net : String → List (String × String) → Except String RemoteDoc)
    (settings : Settings) (url : String) (headers : List (String × String)) :
    TauriDownloadRepository × Bool :=
  match parseUrl url with
  | none => (TauriDownloadRepository.BadUrl, false)
  | some u =>
    download_one_repository net u headers (user_repo_urls settings) (user_repo_ids settings)

/-- Embeds `environment_add_repository` (packages.rs lines 323-356): parse
the URL (BadUrl on failure, before any network), run `add_remote_repo`
(performs the network fetch and the settings mutation), save settings, then
`clear_cache`. Components: command result, network-used flag, final cache. -/
def environment_add_repository
    (parseUrl : String → Option String)
    (add_remote_repo : String → Except String Unit)
    (save : Except String Unit)
    (url : String) (packages : PackagesState) :
    Except String TauriAddRepositoryResult × Bool × PackagesState :=
  match parseUrl url with
  | none => (Except.ok TauriAddRepositoryResult.BadUrl, false, packages)
  | some u =>
    match add_remote_repo u with
    | Except.error e => (Except.error e, true, packages)
    | Except.ok _ =>
      match save with
      | Except.error e => (Except.error e, true, packages)
      | Except.ok _ =>
        (Except.ok TauriAddRepositoryResult.Success, true, packages.clear_cache)

/-- Embeds `environment_remove_repository` (packages.rs lines 358-382):
remove matching repositories from the settings, save, then `clear_cache`.
File removals are fire-and-forget (`.ok()`) and are not modelled. -/
def environment_remove_repository
    (save : Except String Unit) (id : String)
    (settings : Settings) (packages : PackagesState) :
    Except String Unit × Settings × PackagesState :=
  let settings' : Settings :=
    { settings with
        user_repos := settings.user_repos.filter (fun r => r.id? ≠ some id) }
  match save with
  | Except.error e => (Except.error e, settings', packages)
  | Except.ok _ => (Except.ok (), settings', packages.clear_cache)

/-- Runs `add_remote_repo` over each descriptor in order, propagating the
first failure, as the loop of packages.rs lines 511-521 does. -/
def addAllRepos (add : TauriRepositoryDescriptor → Except String Unit) :
    List TauriRepositoryDescriptor → Except String Unit
  | [] => Except.ok ()
  | d :: rest =>
    match add d with
    | Except.error e => Except.error e
    | Except.ok _ => addAllRepos add rest

/-- Embeds `environment_import_add_repositories` (packages.rs lines 501-528):
bulk-add all descriptors, save, then `clear_cache`. -/
def environment_import_add_repositories
    (add : TauriRepositoryDescriptor → Except String Unit)
    (save : Except String Unit)
    (repositories : List TauriRepositoryDescriptor)
    (packages : PackagesState) :
    Except String Unit × PackagesState :=
  match addAllRepos add repositories with
  | Except.error e => (Except.error e, packages)
  | Except.ok _ =>
    match save with
    | Except.error e => (Except.error e, packages)
    | Except.ok _ => (Except.ok (), packages.clear_cache)

/-- Embeds `environment_add_user_package_with_picker` (packages.rs lines
602-645): folder pick, validity check, `add_user_package`, save, then
`clear_cache` on the successful path. The Rust `unreachable!` on
`NonAbsolute` is modelled as an aborting error. -/
def environment_add_user_package_with_picker
    (picked : Option String) (valid : Bool)
    (add_user_package : String → AddUserPackageResult)
    (save : Except String Unit) (packages : PackagesState) :
    Except String TauriAddUserPackageWithPickerResult × PackagesState :=
  match picked with
  | none => (Except.ok TauriAddUserPackageWithPickerResult.NoFolderSelected, packages)
  | some path =>
    if !valid then
      (Except.ok TauriAddUserPackageWithPickerResult.InvalidSelection, packages)
    else
      match add_user_package path with
      | AddUserPackageResult.NonAbsolute => (Except.error "unreachable: absolute path", packages)
      | AddUserPackageResult.BadPackage =>
        (Except.ok TauriAddUserPackageWithPickerResult.InvalidSelection, packages)
      | AddUserPackageResult.AlreadyAdded =>
        (Except.ok TauriAddUserPackageWithPickerResult.AlreadyAdded, packages)
      | AddUserPackageResult.Success =>
        match save with
        | Except.error e => (Except.error e, packages)
        | Except.ok _ =>
          (Except.ok TauriAddUserPackageWithPickerResult.Successful, packages.clear_cache)

/-- Embeds `environment_remove_user_packages` (packages.rs lines 647-664):
remove the user package from the settings, save, then `clear_cache`. -/
def environment_remove_user_packages
    (save : Except String Unit) (_path : String)
    (_settings : Settings) (packages : PackagesState) :
    Except String Unit × PackagesState :=
  match save with
  | Except.error e => (Except.error e, packages)
  | Except.ok _ => (Except.ok (), packages.clear_cache)

/-- Embeds `environment_clear_package_cache` (packages.rs lines 555-565):
clear the on-disk package cache (fallible), then `clear_cache`. -/
def environment_clear_package_cache
    (clear_package_cache_io : Except String Unit) (packages : PackagesState) :
    Except String Unit × PackagesState :=
  match clear_package_cache_io with
  | Except.error e => (Except.error e, packages)
  | Except.ok _ => (Except.ok (), packages.clear_cache)

/-- The descriptor used as the out-of-range default for `List.getD`. -/
def defaultDesc : TauriRepositoryDescriptor :=
  { url := "", headers := [] }

/-- The pair used as the out-of-range default for `List.getD` on result lists. -/
def defaultPair : TauriRepositoryDescriptor × TauriDownloadRepository :=
  (defaultDesc, TauriDownloadRepository.BadUrl)

/-- State of one in-flight batch import: the result slot of each submitted
task (filled when its fetch completes), the shared progress counter, and the
log of emitted progress values in emission order. -/
structure BatchSim where
  slots : Nat → Option TauriDownloadRepository
  counter : Nat
  emitted : List Nat

/-- The initial batch state: no slot filled, counter zero, nothing emitted. -/
def initSim : BatchSim :=
  { slots := fun _ => none, counter := 0, emitted := [] }

/-- The outcome of fetching the `i`-th submitted descriptor (packages.rs
lines 464-471): determined by the descriptor and the read-only known sets
alone, independently of when the fetch completes. -/
def outcomeAt
    (net : String → List (String × String) → Except String RemoteDoc)
    (urls ids : List String)
    (descs : List TauriRepositoryDescriptor) (i : Nat) : TauriDownloadRepository :=
  (download_one_repository net (descs.getD i defaultDesc).url
    (descs.getD i defaultDesc).headers urls ids).1

/-- One task completion (packages.rs lines 464-478): store the fetched
outcome into slot `i`, atomically increment the shared counter
(`fetch_add(1)`), and emit the counter value from before the increment
(`fetch_add` returns the previous value). -/
def stepCompletion
    (net : String → List (String × String) → Except String RemoteDoc)
    (urls ids : List String)
    (descs : List TauriRepositoryDescriptor)
    (st : BatchSim) (i : Nat) : BatchSim :=
  { slots := fun j => if j = i then some (outcomeAt net urls ids descs i) else st.slots j
    counter := st.counter + 1
    emitted := st.emitted ++ [st.counter] }

/-- Runs the batch's concurrent fetch phase along an explicit completion
order: the `k`-th element of `order` is the index of the `k`-th task to
complete. -/
def runPure
    (net : String → List (String × String) → Except String RemoteDoc)
    (urls ids : List String)
    (descs : List TauriRepositoryDescriptor) :
    List Nat → BatchSim → BatchSim
  | [], st => st
  | i :: rest, st => runPure net urls ids descs rest (stepCompletion net urls ids descs st i)

/-- Modelled from the spec: the progress channel collaborator
(`crate::commands::async_command`, outside this excerpt) "accepts an emitted
progress value per completed batch item; closing/drop is non-fatal to the
emitter" (spec section 6); an emit to a closed channel is dropped as a
fire-and-forget notification (spec section 5) and reports success. -/
def channelEmit (_closed : Bool) (_v : Nat) : Except String Unit :=
  Except.ok ()

/-- One task completion with the emit threaded through: `ctx.emit(count)
.unwrap()` (packages.rs line 476) turns an emit failure into an abort of the
whole batch. -/
def stepCompletionE
    (net : String → List (String × String) → Except String RemoteDoc)
    (urls ids : List String)
    (descs : List TauriRepositoryDescriptor)
    (emit : Nat → Except String Unit)
    (st : BatchSim) (i : Nat) : Except String BatchSim :=
  match emit st.counter with
  | Except.error e => Except.error e
  | Except.ok _ => Except.ok (stepCompletion net urls ids descs st i)

/-- Runs the concurrent fetch phase along a completion order, aborting the
batch if any emit fails (the `try_join_all` of packages.rs lines 460-481). -/
def runBatchE
    (net : String → List (String × String) → Except String RemoteDoc)
    (urls ids : List String)
    (descs : List TauriRepositoryDescriptor)
    (emit : Nat → Except String Unit) :
    List Nat → BatchSim → Except String BatchSim
  | [], st => Except.ok st
  | i :: rest, st =>
    match stepCompletionE net urls ids descs emit st i with
    | Except.error e => Except.error e
    | Except.ok st' => runBatchE net urls ids descs emit rest st'

/-- Reads the joined results back in submission order, as `try_join_all`
presents them: the `i`-th pair is the `i`-th descriptor with its slot. -/
def gatherResults (sim : BatchSim) (descs : List TauriRepositoryDescriptor) :
    List (TauriRepositoryDescriptor × TauriDownloadRepository) :=
  (List.range descs.length).map
    (fun i => (descs.getD i defaultDesc, (sim.slots i).getD TauriDownloadRepository.BadUrl))

/-- The submission-order result list of the fetch phase: each descriptor
paired with the outcome of its own fetch. -/
def fetchPhase
    (net : String → List (String × String) → Except String RemoteDoc)
    (urls ids : List String)
    (descs : List TauriRepositoryDescriptor) :
    List (TauriRepositoryDescriptor × TauriDownloadRepository) :=
  descs.map (fun d => (d, (download_one_repository net d.url d.headers urls ids).1))

/-- The ids of the `Success` outcomes of a result list, in order. -/
def successIds :
    List (TauriRepositoryDescriptor × TauriDownloadRepository) → List String
  | [] => []
  | (_, TauriDownloadRepository.Success v) :: rest => v.id :: successIds rest
  | _ :: rest => successIds rest

/-- Embeds the post-join dedup re-pass (packages.rs lines 483-492): walk the
results in submission order with a mutable ids-seen set seeded from the
pre-existing known-id set; rewrite a `Success` whose id was already seen to
`Duplicated`, otherwise record its id as seen. -/
def dedupPass (seen : List String) :
    List (TauriRepositoryDescriptor × TauriDownloadRepository) →
    List (TauriRepositoryDescriptor × TauriDownloadRepository)
  | [] => []
  | (d, TauriDownloadRepository.Success v) :: rest =>
    if v.id ∈ seen then
      (d, TauriDownloadRepository.Duplicated) :: dedupPass seen rest
    else
      (d, TauriDownloadRepository.Success v) :: dedupPass (v.id :: seen) rest
  | (d, o) :: rest => (d, o) :: dedupPass seen rest

/-- Embeds `environment_import_download_repositories` (packages.rs lines
431-499): snapshot the known-URL and known-id sets, run all fetches
concurrently (modelled along an explicit completion order) with progress
emits, join, then run the dedup re-pass seeded from the known-id set. -/
def environment_import_download_repositories
    (net : String → List (String × String) → Except String RemoteDoc)
    (settings : Settings)
    (emit : Nat → Except String Unit)
    (repositories : List TauriRepositoryDescriptor)
    (order : List Nat) :
    Except String (List (TauriRepositoryDescriptor × TauriDownloadRepository)) :=
  match runBatchE net (user_repo_urls settings) (user_repo_ids settings)
      repositories emit order initSim with
  | Except.error e => Except.error e
  | Except.ok sim =>
    Except.ok (dedupPass (user_repo_ids settings) (gatherResults sim repositories))

/-! ### Supporting lemmas -/

theorem runBatchE_channelEmit
    (net : String → List (String × String) → Except String RemoteDoc)
    (urls ids : List String) (descs : List TauriRepositoryDescriptor)
    (closed : Bool) (order : List Nat) (st : BatchSim) :
    runBatchE net urls ids descs (channelEmit closed) order st =
      Except.ok (runPure net urls ids descs order st) := by
  induction order generalizing st with
  | nil => rfl
  | cons i rest ih =>
    simp only [runBatchE, stepCompletionE, channelEmit, runPure]
    exact ih _

theorem runPure_emitted
    (net : String → List (String × String) → Except String RemoteDoc)
    (urls ids : List String) (descs : List TauriRepositoryDescriptor)
    (order : List Nat) (st : BatchSim) :
    (runPure net urls ids descs order st).emitted =
      st.emitted ++ List.range' st.counter order.length := by
  induction order generalizing st with
  | nil => simp [runPure]
  | cons i rest ih =>
    simp only [runPure, List.length_cons, List.range'_succ]
    rw [ih]
    simp [stepCompletion]

theorem runPure_slots_of_not_mem
    (net : String → List (String × String) → Except String RemoteDoc)
    (urls ids : List String) (descs : List TauriRepositoryDescriptor)
    (order : List Nat) (st : BatchSim) (i : Nat) (h : i ∉ order) :
    (runPure net urls ids descs order st).slots i = st.slots i := by
  induction order generalizing st with
  | nil => rfl
  | cons j rest ih =>
    have hij : i ≠ j := fun hh => h (hh ▸ List.mem_cons_self j rest)
    have hrest : i ∉ rest := fun hh => h (List.mem_cons_of_mem j hh)
    simp only [runPure]
    rw [ih _ hrest]
    simp [stepCompletion, hij]

theorem runPure_slots_of_mem
    (net : String → List (String × String) → Except String RemoteDoc)
    (urls ids : List String) (descs : List TauriRepositoryDescriptor)
    (order : List Nat) (st : BatchSim) (i : Nat) (h : i ∈ order) :
    (runPure net urls ids descs order st).slots i =
      some (outcomeAt net urls ids descs i) := by
  induction order generalizing st with
  | nil => exact absurd h (List.not_mem_nil i)
  | cons j rest ih =>
    by_cases hrest : i ∈ rest
    · simp only [runPure]
      exact ih _ hrest
    · have hij : i = j := by
        rcases List.mem_cons.mp h with h1 | h1
        · exact h1
        · exact absurd h1 hrest
      subst hij
      simp only [runPure]
      rw [runPure_slots_of_not_mem net urls ids descs rest _ i hrest]
      simp [stepCompletion]

theorem range_map_getD {α β : Type} (l : List α) (g : α → β) (d : α) :
    (List.range l.length).map (fun i => g (l.getD i d)) = l.map g := by
  induction l with
  | nil => simp
  | cons h t ih =>
    simp only [List.length_cons, List.range_succ_eq_map, List.map_cons, List.map_map]
    have : ((fun i => g ((h :: t).getD i d)) ∘ Nat.succ) = fun i => g (t.getD i d) := by
      funext i
      simp [Function.comp, List.getD_cons_succ]
    rw [this, ih]
    simp [List.getD_cons_zero]

theorem gatherResults_runPure
    (net : String → List (String × String) → Except String RemoteDoc)
    (urls ids : List String) (descs : List TauriRepositoryDescriptor)
    (order : List Nat) (hord : ∀ i, i < descs.length → i ∈ order) :
    gatherResults (runPure net urls ids descs order initSim) descs =
      fetchPhase net urls ids descs := by
  unfold gatherResults fetchPhase
  rw [List.map_congr_left (g := fun i =>
    (descs.getD i defaultDesc,
      (download_one_repository net (descs.getD i defaultDesc).url
        (descs.getD i defaultDesc).headers urls ids).1))]
  · exact range_map_getD descs
      (fun d => (d, (download_one_repository net d.url d.headers urls ids).1)) defaultDesc
  · intro i hi
    rw [runPure_slots_of_mem net urls ids descs order initSim i
      (hord i (List.mem_range.mp hi))]
    rfl

theorem dedupPass_length (seen : List String)
    (l : List (TauriRepositoryDescriptor × TauriDownloadRepository)) :
    (dedupPass seen l).length = l.length := by
  induction l generalizing seen with
  | nil => rfl
  | cons hd tl ih =>
    obtain ⟨d, o⟩ := hd
    cases o <;> simp only [dedupPass, List.length_cons, ih]
    split <;> simp [ih]

theorem dedupPass_map_fst (seen : List String)
    (l : List (TauriRepositoryDescriptor × TauriDownloadRepository)) :
    (dedupPass seen l).map Prod.fst = l.map Prod.fst := by
  induction l generalizing seen with
  | nil => rfl
  | cons hd tl ih =>
    obtain ⟨d, o⟩ := hd
    cases o <;> simp only [dedupPass, List.map_cons, ih]
    split <;> simp [ih]

theorem dedupPass_mem (seen : List String)
    (l : List (TauriRepositoryDescriptor × TauriDownloadRepository))
    (p : TauriRepositoryDescriptor × TauriDownloadRepository)
    (hp : p ∈ dedupPass seen l) :
    p.2 = TauriDownloadRepository.Duplicated ∨ p ∈ l := by
  induction l generalizing seen with
  | nil => exact absurd hp (List.not_mem_nil p)
  | cons hd tl ih =>
    obtain ⟨d, o⟩ := hd
    cases o with
    | Success v =>
      simp only [dedupPass] at hp
      by_cases hv : v.id ∈ seen
      · rw [if_pos hv] at hp
        rcases List.mem_cons.mp hp with h1 | h1
        · exact Or.inl (h1 ▸ rfl)
        · rcases ih seen h1 with h2 | h2
          · exact Or.inl h2
          · exact Or.inr (List.mem_cons_of_mem _ h2)
      · rw [if_neg hv] at hp
        rcases List.mem_cons.mp hp with h1 | h1
        · exact Or.inr (h1 ▸ List.mem_cons_self _ _)
        · rcases ih (v.id :: seen) h1 with h2 | h2
          · exact Or.inl h2
          · exact Or.inr (List.mem_cons_of_mem _ h2)
    | BadUrl =>
      simp only [dedupPass] at hp
      rcases List.mem_cons.mp hp with h1 | h1
      · exact Or.inr (h1 ▸ List.mem_cons_self _ _)
      · rcases ih seen h1 with h2 | h2
        · exact Or.inl h2
        · exact Or.inr (List.mem_cons_of_mem _ h2)
    | Duplicated =>
      simp only [dedupPass] at hp
      rcases List.mem_cons.mp hp with h1 | h1
      · exact Or.inr (h1 ▸ List.mem_cons_self _ _)
      · rcases ih seen h1 with h2 | h2
        · exact Or.inl h2
        · exact Or.inr (List.mem_cons_of_mem _ h2)
    | DownloadError m =>
      simp only [dedupPass] at hp
      rcases List.mem_cons.mp hp with h1 | h1
      · exact Or.inr (h1 ▸ List.mem_cons_self _ _)
      · rcases ih seen h1 with h2 | h2
        · exact Or.inl h2
        · exact Or.inr (List.mem_cons_of_mem _ h2)

theorem dedupPass_getD_success (seen : List String)
    (l : List (TauriRepositoryDescriptor × TauriDownloadRepository))
    (j : Nat) (d : TauriRepositoryDescriptor) (v : TauriRemoteRepositoryInfo)
    (hj : j < l.length)
    (hEl : l.getD j defaultPair = (d, TauriDownloadRepository.Success v)) :
    (dedupPass seen l).getD j defaultPair =
      if v.id ∈ seen ∨ v.id ∈ successIds (l.take j)
      then (d, TauriDownloadRepository.Duplicated)
      else (d, TauriDownloadRepository.Success v) := by
  induction l generalizing seen j with
  | nil => exact absurd hj (by simp)
  | cons hd tl ih =>
    obtain ⟨dh, oh⟩ := hd
    cases j with
    | zero =>
      rw [List.getD_cons_zero] at hEl
      injection hEl with h1 h2
      subst h1
      subst h2
      by_cases hv : v.id ∈ seen <;>
        simp [dedupPass, hv, successIds, List.getD_cons_zero]
    | succ j' =>
      have hj' : j' < tl.length := by
        simpa [List.length_cons, Nat.succ_lt_succ_iff] using hj
      rw [List.getD_cons_succ] at hEl
      rw [List.take_succ_cons]
      cases oh with
      | Success w =>
        by_cases hw : w.id ∈ seen
        · simp only [dedupPass, if_pos hw, List.getD_cons_succ]
          rw [ih seen j' hj' hEl]
          refine if_congr ?_ rfl rfl
          simp only [successIds, List.mem_cons]
          constructor
          · rintro (h1 | h1)
            · exact Or.inl h1
            · exact Or.inr (Or.inr h1)
          · rintro (h1 | h1 | h1)
            · exact Or.inl h1
            · exact Or.inl (h1 ▸ hw)
            · exact Or.inr h1
        · simp only [dedupPass, if_neg hw, List.getD_cons_succ]
          rw [ih (w.id :: seen) j' hj' hEl]
          refine if_congr ?_ rfl rfl
          simp only [successIds, List.mem_cons]
          constructor
          · rintro (h1 | h1)
            · rcases h1 with h2 | h2
              · exact Or.inr (Or.inl h2)
              · exact Or.inl h2
            · exact Or.inr (Or.inr h1)
          · rintro (h1 | h1 | h1)
            · exact Or.inl (Or.inr h1)
            · exact Or.inl (Or.inl h1)
            · exact Or.inr h1
      | BadUrl =>
        simp only [dedupPass, List.getD_cons_succ, successIds]
        exact ih seen j' hj' hEl
      | Duplicated =>
        simp only [dedupPass, List.getD_cons_succ, successIds]
        exact ih seen j' hj' hEl
      | DownloadError m =>
        simp only [dedupPass, List.getD_cons_succ, successIds]
        exact ih seen j' hj' hEl

theorem dedupPass_getD_other (seen : List String)
    (l : List (TauriRepositoryDescriptor × TauriDownloadRepository))
    (j : Nat) (hj : j < l.length)
    (hNS : ∀ v, (l.getD j defaultPair).2 ≠ TauriDownloadRepository.Success v) :
    (dedupPass seen l).getD j defaultPair = l.getD j defaultPair := by
  induction l generalizing seen j with
  | nil => exact absurd hj (by simp)
  | cons hd tl ih =>
    obtain ⟨dh, oh⟩ := hd
    cases j with
    | zero =>
      rw [List.getD_cons_zero] at hNS ⊢
      cases oh with
      | Success w => exact absurd rfl (hNS w)
      | BadUrl => simp [dedupPass, List.getD_cons_zero]
      | Duplicated => simp [dedupPass, List.getD_cons_zero]
      | DownloadError m => simp [dedupPass, List.getD_cons_zero]
    | succ j' =>
      have hj' : j' < tl.length := by
        simpa [List.length_cons, Nat.succ_lt_succ_iff] using hj
      rw [List.getD_cons_succ] at hNS ⊢
      cases oh with
      | Success w =>
        by_cases hw : w.id ∈ seen
        · simp only [dedupPass, if_pos hw, List.getD_cons_succ]
          exact ih seen j' hj' hNS
        · simp only [dedupPass, if_neg hw, List.getD_cons_succ]
          exact ih (w.id :: seen) j' hj' hNS
      | BadUrl =>
        simp only [dedupPass, List.getD_cons_succ]
        exact ih seen j' hj' hNS
      | Duplicated =>
        simp only [dedupPass, List.getD_cons_succ]
        exact ih seen j' hj' hNS
      | DownloadError m =>
        simp only [dedupPass, List.getD_cons_succ]
        exact ih seen j' hj' hNS

theorem foldl_latestAcc_spec (l : List PackageVersion)
    (acc : Option PackageVersion) (v : PackageVersion)
    (h : l.foldl latestAcc acc = some v) :
    (v ∈ l ∨ acc = some v) ∧ (∀ w ∈ l, w.version ≤ v.version) ∧
      (∀ a, acc = some a → a.version ≤ v.version) := by
  induction l generalizing acc with
  | nil =>
    simp only [List.foldl_nil] at h
    refine ⟨Or.inr h, ?_, ?_⟩
    · intro w hw
      exact absurd hw (List.not_mem_nil w)
    · intro a ha
      rw [h] at ha
      injection ha with ha
      exact Nat.le_of_eq (congrArg PackageVersion.version ha.symm)
  | cons x xs ih =>
    simp only [List.foldl_cons] at h
    obtain ⟨ihMem, ihAll, ihAcc⟩ := ih (latestAcc acc x) h
    have hstep : ∀ m, latestAcc acc x = some m →
        x.version ≤ m.version ∧ ∀ a, acc = some a → a.version ≤ m.version := by
      intro m hm
      cases acc with
      | none =>
        simp only [latestAcc] at hm
        injection hm with hm
        subst hm
        exact ⟨Nat.le_refl _, fun a ha => by cases ha⟩
      | some a =>
        simp only [latestAcc] at hm
        by_cases hle : a.version ≤ x.version
        · rw [if_pos hle] at hm
          injection hm with hm
          subst hm
          refine ⟨Nat.le_refl _, ?_⟩
          intro a' ha'
          injection ha' with ha'
          subst ha'
          exact hle
        · rw [if_neg hle] at hm
          injection hm with hm
          subst hm
          refine ⟨Nat.le_of_lt (Nat.lt_of_not_le hle), ?_⟩
          intro a' ha'
          injection ha' with ha'
          subst ha'
          exact Nat.le_refl _
    have hmEx : ∃ m, latestAcc acc x = some m := by
      cases acc with
      | none => exact ⟨x, rfl⟩
      | some a =>
        by_cases hle : a.version ≤ x.version
        · exact ⟨x, by simp [latestAcc, hle]⟩
        · exact ⟨a, by simp [latestAcc, hle]⟩
    obtain ⟨m, hm⟩ := hmEx
    obtain ⟨hxm, haccm⟩ := hstep m hm
    have hmv : m.version ≤ v.version := ihAcc m hm
    refine ⟨?_, ?_, ?_⟩
    · rcases ihMem with h1 | h1
      · exact Or.inl (List.mem_cons_of_mem x h1)
      · cases acc with
        | none =>
          simp only [latestAcc] at h1
          injection h1 with h1
          exact Or.inl (h1 ▸ List.mem_cons_self x xs)
        | some a =>
          simp only [latestAcc] at h1
          by_cases hle : a.version ≤ x.version
          · rw [if_pos hle] at h1
            injection h1 with h1
            exact Or.inl (h1 ▸ List.mem_cons_self x xs)
          · rw [if_neg hle] at h1
            exact Or.inr h1
    · intro w hw
      rcases List.mem_cons.mp hw with h1 | h1
      · exact h1 ▸ Nat.le_trans hxm hmv
      · exact ihAll w h1
    · intro a ha
      exact Nat.le_trans (haccm a ha) hmv

theorem get_latest_spec (p : RepoPackage) (v : PackageVersion)
    (h : get_latest p = some v) :
    v ∈ p.versions ∧ ∀ w ∈ p.versions, w.version ≤ v.version := by
  obtain ⟨hMem, hAll, _⟩ := foldl_latestAcc_spec p.versions none v h
  rcases hMem with h1 | h1
  · exact ⟨h1, hAll⟩
  · cases h1

theorem mem_previewPackages (ps : List RepoPackage) (v : PackageVersion) :
    v ∈ previewPackages ps ↔
      v.yanked = false ∧ ∃ p ∈ ps, get_latest p = some v := by
  unfold previewPackages
  rw [List.mem_filter, List.mem_filterMap]
  constructor
  · rintro ⟨⟨p, hp, hgl⟩, hy⟩
    exact ⟨by simpa using hy, p, hp, hgl⟩
  · rintro ⟨hy, p, hp, hgl⟩
    exact ⟨⟨p, hp, hgl⟩, by simpa using hy⟩

theorem previewPackages_length_le (ps : List RepoPackage) :
    (previewPackages ps).length ≤ ps.length := by
  unfold previewPackages
  exact Nat.le_trans (List.length_filter_le _ _) (List.length_filterMap_le _ _)

theorem download_one_repository_ne_BadUrl
    (net : String → List (String × String) → Except String RemoteDoc)
    (url : String) (headers : List (String × String)) (urls ids : List String) :
    (download_one_repository net url headers urls ids).1 ≠
      TauriDownloadRepository.BadUrl := by
  unfold download_one_repository
  by_cases h1 : url ∈ urls
  · simp [h1]
  · rcases hn : net url headers with e | repo <;> simp only [h1, if_neg, hn]
    · simp
    · by_cases h2 : resolve_id repo url ∈ ids <;> simp [h2]

theorem fetchPhase_outcome_ne_BadUrl
    (net : String → List (String × String) → Except String RemoteDoc)
    (urls ids : List String) (descs : List TauriRepositoryDescriptor)
    (p : TauriRepositoryDescriptor × TauriDownloadRepository)
    (hp : p ∈ fetchPhase net urls ids descs) :
    p.2 ≠ TauriDownloadRepository.BadUrl := by
  unfold fetchPhase at hp
  rcases List.mem_map.mp hp with ⟨d, _, rfl⟩
  exact download_one_repository_ne_BadUrl net d.url d.headers urls ids

/-! ### Concrete example inputs used by the witnesses -/

/-- A remote document that declares id `x` and nothing else. -/
def exDoc : RemoteDoc :=
  { id? := some "x", url? := none, name? := none, packages := [] }

/-- A network oracle under which every fetch succeeds with `exDoc`. -/
def exNet : String → List (String × String) → Except String RemoteDoc :=
  fun _ _ => Except.ok exDoc

/-- Settings with no stored repositories and both built-ins ignored. -/
def exSettings : Settings :=
  { user_repos := [], ignore_curated_repository := true,
    ignore_official_repository := true }

/-- First example descriptor. -/
def exDesc1 : TauriRepositoryDescriptor :=
  { url := "https://one.example/repo", headers := [] }

/-- Second example descriptor. -/
def exDesc2 : TauriRepositoryDescriptor :=
  { url := "https://two.example/repo", headers := [] }

/-- The resolved repository info for fetching `exDesc1` under `exNet`. -/
def exInfo1 : TauriRemoteRepositoryInfo :=
  { display_name := "x", id := "x", url := "https://one.example/repo", packages := [] }

/-- Two example document packages: one whose latest version 2 is not yanked
(version 1 is older), one whose only version 3 is yanked. -/
def exPackages : List RepoPackage :=
  [{ versions := [{ version := 1, yanked := false }, { version := 2, yanked := false }] },
   { versions := [{ version := 3, yanked := true }] }]

/-! ### Claims -/

/-- C3: for every call to the single-repository fetch
(`download_one_repository`) where the fetch URL string is already a member
of the known-URL set, the result is `Duplicated` and no network fetch is
performed. -/
theorem known_url_duplicated_without_fetch
    (net : String → List (String × String) → Except String RemoteDoc)
    (url : String) (headers : List (String × String)) (urls ids : List String)
    (h : url ∈ urls) :
    download_one_repository net url headers urls ids
      = (TauriDownloadRepository.Duplicated, false) := by
  unfold download_one_repository
  rw [if_pos h]

/-- Witness for C3 at a concrete known URL. -/
theorem known_url_duplicated_without_fetch_witness :
    "https://known.example/repo" ∈ ["https://known.example/repo"] ∧
    download_one_repository exNet "https://known.example/repo" []
        ["https://known.example/repo"] []
      = (TauriDownloadRepository.Duplicated, false) :=
  ⟨by decide,
    known_url_duplicated_without_fetch exNet "https://known.example/repo" []
      ["https://known.example/repo"] [] (by decide)⟩

/-- C4: for every successfully fetched repository document, identity is
resolved by fallback — the resolved url is the document's declared url if
present, else the fetch URL; the resolved id is the document's declared id
if present, else the resolved url; the resolved display name is the
document's declared name if present, else the resolved id — and the
`Success` outcome of `download_one_repository` carries exactly this
resolution. The resolving functions are total Lean functions, hence total
and side-effect-free. -/
theorem identity_resolution_fallback :
    (∀ (i n : Option String) (ps : List RepoPackage) (f u : String),
        resolve_url ⟨i, some u, n, ps⟩ f = u) ∧
    (∀ (i n : Option String) (ps : List RepoPackage) (f : String),
        resolve_url ⟨i, none, n, ps⟩ f = f) ∧
    (∀ (u n : Option String) (ps : List RepoPackage) (f i : String),
        resolve_id ⟨some i, u, n, ps⟩ f = i) ∧
    (∀ (u n : Option String) (ps : List RepoPackage) (f : String),
        resolve_id ⟨none, u, n, ps⟩ f = resolve_url ⟨none, u, n, ps⟩ f) ∧
    (∀ (i u : Option String) (ps : List RepoPackage) (f nm : String),
        resolve_name ⟨i, u, some nm, ps⟩ f = nm) ∧
    (∀ (i u : Option String) (ps : List RepoPackage) (f : String),
        resolve_name ⟨i, u, none, ps⟩ f = resolve_id ⟨i, u, none, ps⟩ f) ∧
    (∀ (net : String → List (String × String) → Except String RemoteDoc)
        (urls ids : List String) (url : String)
        (headers : List (String × String)) (repo : RemoteDoc),
        url ∉ urls → net url headers = Except.ok repo →
        resolve_id repo url ∉ ids →
        (download_one_repository net url headers urls ids).1
          = TauriDownloadRepository.Success
              { display_name := resolve_name repo url
                id := resolve_id repo url
                url := resolve_url repo url
                packages := previewPackages repo.packages }) := by
  refine ⟨fun i n ps f u => rfl, fun i n ps f => rfl, fun u n ps f i => rfl,
    fun u n ps f => rfl, fun i u ps f nm => rfl, fun i u ps f => rfl, ?_⟩
  intro net urls ids url headers repo h1 h2 h3
  unfold download_one_repository
  rw [if_neg h1, h2]
  dsimp only
  rw [if_neg h3]

/-- Witness for C4 at concrete documents. -/
theorem identity_resolution_fallback_witness :
    resolve_url ⟨some "i", some "u", some "n", []⟩ "f" = "u" ∧
    resolve_url ⟨some "i", none, some "n", []⟩ "f" = "f" ∧
    resolve_id ⟨some "i", none, none, []⟩ "f" = "i" ∧
    resolve_id ⟨none, some "u", none, []⟩ "f" = resolve_url ⟨none, some "u", none, []⟩ "f" ∧
    resolve_name ⟨none, none, some "n", []⟩ "f" = "n" ∧
    resolve_name ⟨none, none, none, []⟩ "f" = resolve_id ⟨none, none, none, []⟩ "f" ∧
    ("https://one.example/repo" ∉ ([] : List String) ∧
      (download_one_repository exNet "https://one.example/repo" [] [] []).1
        = TauriDownloadRepository.Success
            { display_name := resolve_name exDoc "https://one.example/repo"
              id := resolve_id exDoc "https://one.example/repo"
              url := resolve_url exDoc "https://one.example/repo"
              packages := previewPackages exDoc.packages }) :=
  ⟨identity_resolution_fallback.1 (some "i") (some "n") [] "f" "u",
    identity_resolution_fallback.2.1 (some "i") (some "n") [] "f",
    identity_resolution_fallback.2.2.1 none none [] "f" "i",
    identity_resolution_fallback.2.2.2.1 (some "u") none [] "f",
    identity_resolution_fallback.2.2.2.2.1 none none [] "f" "n",
    identity_resolution_fallback.2.2.2.2.2.1 none none [] "f",
    by decide,
    identity_resolution_fallback.2.2.2.2.2.2 exNet [] [] "https://one.example/repo" [] exDoc
      (by decide) rfl (by decide)⟩

/-- C5: for every input string to `environment_download_repository` or
`environment_add_repository` that does not parse as a well-formed URL, the
operation returns the classified value `BadUrl` (not a raised error) and
performs no network activity. -/
theorem malformed_url_badurl_no_network
    (parseUrl : String → Option String)
    (net : String → List (String × String) → Except String RemoteDoc)
    (settings : Settings) (url : String) (headers : List (String × String))
    (add_remote_repo : String → Except String Unit) (save : Except String Unit)
    (packages : PackagesState)
    (h : parseUrl url = none) :
    environment_download_repository parseUrl net settings url headers
      = (TauriDownloadRepository.BadUrl, false) ∧
    environment_add_repository parseUrl add_remote_repo save url packages
      = (Except.ok TauriAddRepositoryResult.BadUrl, false, packages) := by
  unfold environment_download_repository environment_add_repository
  rw [h]
  exact ⟨rfl, rfl⟩

/-- Witness for C5 with the never-parsing parser at a concrete input. -/
theorem malformed_url_badurl_no_network_witness :
    (fun (_ : String) => (none : Option String)) "not a url" = none ∧
    (environment_download_repository (fun _ => none) exNet exSettings "not a url" []
        = (TauriDownloadRepository.BadUrl, false) ∧
      environment_add_repository (fun _ => none) (fun _ => Except.ok ()) (Except.ok ())
          "not a url" (PackagesState.loaded 5)
        = (Except.ok TauriAddRepositoryResult.BadUrl, false, PackagesState.loaded 5)) :=
  ⟨rfl,
    malformed_url_badurl_no_network (fun _ => none) exNet exSettings "not a url" []
      (fun _ => Except.ok ()) (Except.ok ()) (PackagesState.loaded 5) rfl⟩

/-- C7: for every settings state, the known-URL set and known-id set are
built by collecting the URL and id of every stored user repository that has
one; the fixed curated repository URL and id are included exactly when the
curated ignore flag is false, and the fixed official repository URL and id
are included exactly when the official ignore flag is false. -/
theorem known_sets_built_from_settings (s : Settings) (x : String) :
    (x ∈ user_repo_urls s ↔
      (∃ r ∈ s.user_repos, r.url? = some x) ∨
      (s.ignore_curated_repository = false ∧
        x = "https://packages.vrchat.com/curated?download") ∨
      (s.ignore_official_repository = false ∧
        x = "https://packages.vrchat.com/official?download")) ∧
    (x ∈ user_repo_ids s ↔
      (∃ r ∈ s.user_repos, r.id? = some x) ∨
      (s.ignore_curated_repository = false ∧ x = "com.vrchat.repos.curated") ∨
      (s.ignore_official_repository = false ∧ x = "com.vrchat.repos.official")) := by
  constructor
  · unfold user_repo_urls
    by_cases hc : s.ignore_curated_repository <;>
      by_cases ho : s.ignore_official_repository <;>
        simp [hc, ho, List.mem_append, List.mem_filterMap]
  · unfold user_repo_ids
    by_cases hc : s.ignore_curated_repository <;>
      by_cases ho : s.ignore_official_repository <;>
        simp [hc, ho, List.mem_append, List.mem_filterMap]

/-- C9: for every batch import, emitting a progress value to a closed or
dropped progress channel is non-fatal to the emitter: the batch operation
still runs to completion and returns its outcome list rather than failing
because an emit could not be delivered (the channel collaborator is
spec-modelled, see `channelEmit`). -/
theorem closed_channel_emit_non_fatal
    (net : String → List (String × String) → Except String RemoteDoc)
    (settings : Settings) (repositories : List TauriRepositoryDescriptor)
    (order : List Nat) :
    environment_import_download_repositories net settings (channelEmit true)
        repositories order
      = Except.ok (dedupPass (user_repo_ids settings)
          (gatherResults
            (runPure net (user_repo_urls settings) (user_repo_ids settings)
              repositories order initSim)
            repositories)) := by
  unfold environment_import_download_repositories
  rw [runBatchE_channelEmit]

/-- C8: every mutating operation that completes successfully — add
repository, remove repository, bulk add of imported repositories, add user
package, remove user package, and explicit package-cache clear —
invalidates the package cache (calls `clear_cache`) before returning, so
the final cache state is `empty` (the `clear_cache` semantics is
spec-modelled, see `PackagesState.clear_cache`). -/
theorem mutations_clear_package_cache :
    (∀ (parseUrl : String → Option String)
        (add_remote_repo : String → Except String Unit)
        (save : Except String Unit) (url : String) (packages : PackagesState),
        (environment_add_repository parseUrl add_remote_repo save url packages).1
            = Except.ok TauriAddRepositoryResult.Success →
        (environment_add_repository parseUrl add_remote_repo save url packages).2.2
            = PackagesState.empty) ∧
    (∀ (save : Except String Unit) (id : String) (settings : Settings)
        (packages : PackagesState),
        (environment_remove_repository save id settings packages).1 = Except.ok () →
        (environment_remove_repository save id settings packages).2.2
            = PackagesState.empty) ∧
    (∀ (add : TauriRepositoryDescriptor → Except String Unit)
        (save : Except String Unit)
        (repositories : List TauriRepositoryDescriptor) (packages : PackagesState),
        (environment_import_add_repositories add save repositories packages).1
            = Except.ok () →
        (environment_import_add_repositories add save repositories packages).2
            = PackagesState.empty) ∧
    (∀ (picked : Option String) (valid : Bool)
        (add_user_package : String → AddUserPackageResult)
        (save : Except String Unit) (packages : PackagesState),
        (environment_add_user_package_with_picker picked valid add_user_package
            save packages).1
            = Except.ok TauriAddUserPackageWithPickerResult.Successful →
        (environment_add_user_package_with_picker picked valid add_user_package
            save packages).2
            = PackagesState.empty) ∧
    (∀ (save : Except String Unit) (path : String) (settings : Settings)
        (packages : PackagesState),
        (environment_remove_user_packages save path settings packages).1
            = Except.ok () →
        (environment_remove_user_packages save path settings packages).2
            = PackagesState.empty) ∧
    (∀ (io_clear : Except String Unit) (packages : PackagesState),
        (environment_clear_package_cache io_clear packages).1 = Except.ok () →
        (environment_clear_package_cache io_clear packages).2
            = PackagesState.empty) := by
  refine ⟨?_, ?_, ?_, ?_, ?_, ?_⟩
  · intro parseUrl add save url st h
    unfold environment_add_repository at h ⊢
    revert h
    cases parseUrl url with
    | none => intro h; simp at h
    | some u =>
      dsimp only
      cases add u with
      | error e => intro h; simp at h
      | ok w =>
        dsimp only
        cases save with
        | error e => intro h; simp at h
        | ok w' => intro h; rfl
  · intro save id settings st h
    unfold environment_remove_repository at h ⊢
    revert h
    cases save with
    | error e => intro h; simp at h
    | ok w => intro h; rfl
  · intro add save repos st h
    unfold environment_import_add_repositories at h ⊢
    revert h
    cases addAllRepos add repos with
    | error e => intro h; simp at h
    | ok w =>
      dsimp only
      cases save with
      | error e => intro h; simp at h
      | ok w' => intro h; rfl
  · intro picked valid add save st h
    unfold environment_add_user_package_with_picker at h ⊢
    revert h
    cases picked with
    | none => intro h; simp at h
    | some path =>
      cases valid with
      | false => intro h; simp at h
      | true =>
        simp only [Bool.not_true, Bool.false_eq_true, if_false]
        cases add path with
        | NonAbsolute => intro h; simp at h
        | BadPackage => intro h; simp at h
        | AlreadyAdded => intro h; simp at h
        | Success =>
          dsimp only
          cases save with
          | error e => intro h; simp at h
          | ok w => intro h; rfl
  · intro save path settings st h
    unfold environment_remove_user_packages at h ⊢
    revert h
    cases save with
    | error e => intro h; simp at h
    | ok w => intro h; rfl
  · intro io_clear st h
    unfold environment_clear_package_cache at h ⊢
    revert h
    cases io_clear with
    | error e => intro h; simp at h
    | ok w => intro h; rfl

/-- Witness for C8: each of the six operations at concrete successful
inputs leaves the cache empty. -/
theorem mutations_clear_package_cache_witness :
    (environment_add_repository (fun s => some s) (fun _ => Except.ok ())
        (Except.ok ()) "https://one.example/repo" (PackagesState.loaded 5)).2.2
        = PackagesState.empty ∧
    (environment_remove_repository (Except.ok ()) "x" exSettings
        (PackagesState.loaded 5)).2.2 = PackagesState.empty ∧
    (environment_import_add_repositories (fun _ => Except.ok ()) (Except.ok ())
        [exDesc1] (PackagesState.loaded 5)).2 = PackagesState.empty ∧
    (environment_add_user_package_with_picker (some "/pkg") true
        (fun _ => AddUserPackageResult.Success) (Except.ok ())
        (PackagesState.loaded 5)).2 = PackagesState.empty ∧
    (environment_remove_user_packages (Except.ok ()) "/pkg" exSettings
        (PackagesState.loaded 5)).2 = PackagesState.empty ∧
    (environment_clear_package_cache (Except.ok ())
        (PackagesState.loaded 5)).2 = PackagesState.empty :=
  ⟨mutations_clear_package_cache.1 _ _ _ _ _ rfl,
    mutations_clear_package_cache.2.1 _ _ _ _ rfl,
    mutations_clear_package_cache.2.2.1 _ _ _ _ rfl,
    mutations_clear_package_cache.2.2.2.1 _ _ _ _ _ rfl,
    mutations_clear_package_cache.2.2.2.2.1 _ _ _ _ rfl,
    mutations_clear_package_cache.2.2.2.2.2 _ _ rfl⟩

/-- C6: for every successful fetch, the `Success` outcome carries the
preview package list: every entry is non-yanked and is its source package's
latest version (no yanked version and no non-latest version appears), at
most one entry arises per document package, and the carried list is exactly
`previewPackages` of the fetched document (the latest-version selector is
spec-modelled, see `get_latest`). -/
theorem preview_list_latest_non_yanked (ps : List RepoPackage) :
    (∀ v ∈ previewPackages ps,
        v.yanked = false ∧
        ∃ p ∈ ps, get_latest p = some v ∧ v ∈ p.versions ∧
          ∀ w ∈ p.versions, w.version ≤ v.version) ∧
    (previewPackages ps).length ≤ ps.length ∧
    (∀ (net : String → List (String × String) → Except String RemoteDoc)
        (url : String) (headers : List (String × String))
        (urls ids : List String) (repo : RemoteDoc)
        (v : TauriRemoteRepositoryInfo),
        net url headers = Except.ok repo →
        (download_one_repository net url headers urls ids).1
            = TauriDownloadRepository.Success v →
        v.packages = previewPackages repo.packages) := by
  refine ⟨?_, previewPackages_length_le ps, ?_⟩
  · intro v hv
    obtain ⟨hy, p, hp, hgl⟩ := (mem_previewPackages ps v).mp hv
    obtain ⟨hmem, hmax⟩ := get_latest_spec p v hgl
    exact ⟨hy, p, hp, hgl, hmem, hmax⟩
  · intro net url headers urls ids repo v hnet hsucc
    unfold download_one_repository at hsucc
    by_cases h1 : url ∈ urls
    · rw [if_pos h1] at hsucc
      simp at hsucc
    · rw [if_neg h1, hnet] at hsucc
      dsimp only at hsucc
      by_cases h2 : resolve_id repo url ∈ ids
      · rw [if_pos h2] at hsucc
        simp at hsucc
      · rw [if_neg h2] at hsucc
        dsimp only at hsucc
        injection hsucc with h3
        rw [← h3]

/-- Witness for C6 at a concrete document: the package whose latest version
2 is non-yanked contributes that version, and the `Success` outcome of a
concrete fetch carries exactly the preview projection. -/
theorem preview_list_latest_non_yanked_witness :
    ((⟨2, false⟩ : PackageVersion) ∈ previewPackages exPackages ∧
      (⟨2, false⟩ : PackageVersion).yanked = false) ∧
    (exNet "https://one.example/repo" [] = Except.ok exDoc ∧
      (download_one_repository exNet "https://one.example/repo" [] [] []).1
          = TauriDownloadRepository.Success exInfo1 ∧
      exInfo1.packages = previewPackages exDoc.packages) :=
  ⟨⟨by decide,
      ((preview_list_latest_non_yanked exPackages).1 ⟨2, false⟩ (by decide)).1⟩,
    ⟨rfl, by decide,
      (preview_list_latest_non_yanked exPackages).2.2 exNet
        "https://one.example/repo" [] [] [] exDoc exInfo1 rfl (by decide)⟩⟩

/-- The resolved repository info for fetching `exDesc2` under `exNet`. -/
def exInfo2 : TauriRemoteRepositoryInfo :=
  { display_name := "x", id := "x", url := "https://two.example/repo", packages := [] }

/-- C1: for every batch import, after all fetches complete (along any
completion order covering every submitted index) the gathered results equal
the submission-order fetch outcomes — independent of completion order — and
the dedup re-pass, seeded from the pre-existing known-id set, leaves a
`Success` at position `j` exactly when its id is neither in the pre-existing
known-id set nor the id of any earlier `Success`, rewriting it to
`Duplicated` otherwise: the earliest `Success` of each fresh id wins,
deterministically. -/
theorem batch_dedup_earliest_success_wins
    (net : String → List (String × String) → Except String RemoteDoc)
    (settings : Settings) (descs : List TauriRepositoryDescriptor)
    (order : List Nat)
    (hord : ∀ i, i < descs.length → i ∈ order) :
    gatherResults
        (runPure net (user_repo_urls settings) (user_repo_ids settings) descs order initSim)
        descs
      = fetchPhase net (user_repo_urls settings) (user_repo_ids settings) descs ∧
    (∀ (j : Nat), j < descs.length →
      ∀ (d : TauriRepositoryDescriptor) (v : TauriRemoteRepositoryInfo),
        (fetchPhase net (user_repo_urls settings) (user_repo_ids settings) descs).getD j
            defaultPair
          = (d, TauriDownloadRepository.Success v) →
        ((v.id ∈ user_repo_ids settings ∨
            v.id ∈ successIds ((fetchPhase net (user_repo_urls settings)
              (user_repo_ids settings) descs).take j)) →
          (dedupPass (user_repo_ids settings)
              (fetchPhase net (user_repo_urls settings) (user_repo_ids settings)
                descs)).getD j defaultPair
            = (d, TauriDownloadRepository.Duplicated)) ∧
        (v.id ∉ user_repo_ids settings →
          v.id ∉ successIds ((fetchPhase net (user_repo_urls settings)
            (user_repo_ids settings) descs).take j) →
          (dedupPass (user_repo_ids settings)
              (fetchPhase net (user_repo_urls settings) (user_repo_ids settings)
                descs)).getD j defaultPair
            = (d, TauriDownloadRepository.Success v))) := by
  refine ⟨gatherResults_runPure net _ _ descs order hord, ?_⟩
  intro j hj d v hEl
  have hjF : j < (fetchPhase net (user_repo_urls settings) (user_repo_ids settings)
      descs).length := by
    unfold fetchPhase
    simpa using hj
  constructor
  · intro hdup
    rw [dedupPass_getD_success _ _ j d v hjF hEl, if_pos hdup]
  · intro h1 h2
    rw [dedupPass_getD_success _ _ j d v hjF hEl, if_neg (fun hc => hc.elim h1 h2)]

/-- Witness for C1: two descriptors both resolving to id `x`, fetched in
reverse completion order; the first in submission order stays `Success`,
the second is rewritten to `Duplicated`. -/
theorem batch_dedup_earliest_success_wins_witness :
    (dedupPass (user_repo_ids exSettings)
        (fetchPhase exNet (user_repo_urls exSettings) (user_repo_ids exSettings)
          [exDesc1, exDesc2])).getD 0 defaultPair
      = (exDesc1, TauriDownloadRepository.Success exInfo1) ∧
    (dedupPass (user_repo_ids exSettings)
        (fetchPhase exNet (user_repo_urls exSettings) (user_repo_ids exSettings)
          [exDesc1, exDesc2])).getD 1 defaultPair
      = (exDesc2, TauriDownloadRepository.Duplicated) := by
  have h := batch_dedup_earliest_success_wins exNet exSettings [exDesc1, exDesc2]
    [1, 0] (by decide)
  constructor
  · exact (h.2 0 (by decide) exDesc1 exInfo1 (by decide)).2 (by decide) (by decide)
  · exact (h.2 1 (by decide) exDesc2 exInfo2 (by decide)).1 (Or.inr (by decide))

/-- C2 (amended): each completed fetch atomically increments the shared
counter and emits the counter's value from before the increment
(`fetch_add(1)` returns the previous value, packages.rs line 475); for a
batch of N descriptors the emitted sequence is `0, 1, ..., N-1`: strictly
increasing, containing N-1 exactly once, and never containing N. -/
theorem progress_emits_previous_counter_value
    (net : String → List (String × String) → Except String RemoteDoc)
    (urls ids : List String) (descs : List TauriRepositoryDescriptor)
    (order : List Nat) (hlen : order.length = descs.length)
    (hne : 0 < descs.length) :
    (runPure net urls ids descs order initSim).emitted = List.range descs.length ∧
    List.Pairwise (fun a b => a < b) (runPure net urls ids descs order initSim).emitted ∧
    (runPure net urls ids descs order initSim).emitted.count (descs.length - 1) = 1 ∧
    descs.length ∉ (runPure net urls ids descs order initSim).emitted := by
  have he : (runPure net urls ids descs order initSim).emitted
      = List.range descs.length := by
    rw [runPure_emitted]
    show ([] : List Nat) ++ List.range' 0 order.length = List.range descs.length
    rw [List.nil_append, hlen, List.range_eq_range']
  refine ⟨he, ?_, ?_, ?_⟩
  · rw [he]
    exact List.pairwise_lt_range descs.length
  · rw [he]
    refine List.count_eq_one_of_mem (List.nodup_range descs.length) ?_
    rw [List.mem_range]
    omega
  · rw [he, List.mem_range]
    omega

/-- Witness for C2 (amended) at a concrete one-element batch. -/
theorem progress_emits_previous_counter_value_witness :
    ([0] : List Nat).length = ([exDesc1] : List TauriRepositoryDescriptor).length ∧
    ((runPure exNet [] [] [exDesc1] [0] initSim).emitted
        = List.range ([exDesc1] : List TauriRepositoryDescriptor).length ∧
      List.Pairwise (fun a b => a < b)
        (runPure exNet [] [] [exDesc1] [0] initSim).emitted ∧
      (runPure exNet [] [] [exDesc1] [0] initSim).emitted.count
          (([exDesc1] : List TauriRepositoryDescriptor).length - 1) = 1 ∧
      ([exDesc1] : List TauriRepositoryDescriptor).length
        ∉ (runPure exNet [] [] [exDesc1] [0] initSim).emitted) :=
  ⟨rfl, progress_emits_previous_counter_value exNet [] [] [exDesc1] [0] rfl (by decide)⟩

/-- C2 counterexample: for a concrete batch of N = 1 descriptor the single
completed fetch emits 0, the counter's value from before the increment (the
claim says it carries the new value), so the emitted sequence is `[0]` and
never reaches the batch size N = 1 — refuting "reaches exactly N". -/
theorem progress_reaches_batch_size_counterexample :
    (runPure exNet [] [] [exDesc1] [0] initSim).emitted = [0] ∧
    1 ∉ (runPure exNet [] [] [exDesc1] [0] initSim).emitted := by
  constructor
  · rfl
  · decide

/-- C10: for every batch import that completes without an aborting error
(modelled with an open channel and a completion order covering every
submitted index), the returned list is the dedup re-pass of the
submission-order fetch outcomes: it has exactly one pair per input
descriptor with the descriptors in original submission order, the re-pass
only rewrites `Success` outcomes to `Duplicated` pointwise (no reorder, no
add, no removal), and no outcome is ever `BadUrl`. -/
theorem batch_result_order_and_no_badurl
    (net : String → List (String × String) → Except String RemoteDoc)
    (settings : Settings) (repositories : List TauriRepositoryDescriptor)
    (order : List Nat)
    (hord : ∀ i, i < repositories.length → i ∈ order) :
    environment_import_download_repositories net settings (channelEmit false)
        repositories order
      = Except.ok (dedupPass (user_repo_ids settings)
          (fetchPhase net (user_repo_urls settings) (user_repo_ids settings)
            repositories)) ∧
    (dedupPass (user_repo_ids settings)
        (fetchPhase net (user_repo_urls settings) (user_repo_ids settings)
          repositories)).map Prod.fst
      = repositories ∧
    (dedupPass (user_repo_ids settings)
        (fetchPhase net (user_repo_urls settings) (user_repo_ids settings)
          repositories)).length = repositories.length ∧
    (∀ p ∈ dedupPass (user_repo_ids settings)
        (fetchPhase net (user_repo_urls settings) (user_repo_ids settings)
          repositories), p.2 ≠ TauriDownloadRepository.BadUrl) ∧
    (∀ (j : Nat), j < repositories.length →
      (dedupPass (user_repo_ids settings)
          (fetchPhase net (user_repo_urls settings) (user_repo_ids settings)
            repositories)).getD j defaultPair
        = (fetchPhase net (user_repo_urls settings) (user_repo_ids settings)
            repositories).getD j defaultPair ∨
      ∃ d v, (fetchPhase net (user_repo_urls settings) (user_repo_ids settings)
            repositories).getD j defaultPair = (d, TauriDownloadRepository.Success v) ∧
        (dedupPass (user_repo_ids settings)
            (fetchPhase net (user_repo_urls settings) (user_repo_ids settings)
              repositories)).getD j defaultPair
          = (d, TauriDownloadRepository.Duplicated)) := by
  refine ⟨?_, ?_, ?_, ?_, ?_⟩
  · unfold environment_import_download_repositories
    rw [runBatchE_channelEmit]
    dsimp only
    rw [gatherResults_runPure net _ _ repositories order hord]
  · rw [dedupPass_map_fst]
    unfold fetchPhase
    rw [List.map_map]
    exact List.map_id repositories
  · rw [dedupPass_length]
    unfold fetchPhase
    rw [List.length_map]
  · intro p hp
    rcases dedupPass_mem _ _ p hp with h1 | h1
    · rw [h1]
      simp
    · exact fetchPhase_outcome_ne_BadUrl net _ _ repositories p h1
  · intro j hj
    have hjF : j < (fetchPhase net (user_repo_urls settings) (user_repo_ids settings)
        repositories).length := by
      unfold fetchPhase
      simpa using hj
    rcases hEl : (fetchPhase net (user_repo_urls settings) (user_repo_ids settings)
        repositories).getD j defaultPair with ⟨d, o⟩
    cases o with
    | Success v =>
      by_cases hc : v.id ∈ user_repo_ids settings ∨
          v.id ∈ successIds ((fetchPhase net (user_repo_urls settings)
            (user_repo_ids settings) repositories).take j)
      · right
        refine ⟨d, v, rfl, ?_⟩
        rw [dedupPass_getD_success _ _ j d v hjF hEl, if_pos hc]
      · left
        rw [dedupPass_getD_success _ _ j d v hjF hEl, if_neg hc]
    | BadUrl =>
      left
      rw [dedupPass_getD_other (user_repo_ids settings) _ j hjF (by rw [hEl]; simp)]
      exact hEl
    | Duplicated =>
      left
      rw [dedupPass_getD_other (user_repo_ids settings) _ j hjF (by rw [hEl]; simp)]
      exact hEl
    | DownloadError m =>
      left
      rw [dedupPass_getD_other (user_repo_ids settings) _ j hjF (by rw [hEl]; simp)]
      exact hEl

/-- Witness for C10 at a concrete two-element batch with reversed
completion order. -/
theorem batch_result_order_and_no_badurl_witness :
    environment_import_download_repositories exNet exSettings (channelEmit false)
        [exDesc1, exDesc2] [1, 0]
      = Except.ok (dedupPass (user_repo_ids exSettings)
          (fetchPhase exNet (user_repo_urls exSettings) (user_repo_ids exSettings)
            [exDesc1, exDesc2])) ∧
    (dedupPass (user_repo_ids exSettings)
        (fetchPhase exNet (user_repo_urls exSettings) (user_repo_ids exSettings)
          [exDesc1, exDesc2])).map Prod.fst = [exDesc1, exDesc2] ∧
    (dedupPass (user_repo_ids exSettings)
        (fetchPhase exNet (user_repo_urls exSettings) (user_repo_ids exSettings)
          [exDesc1, exDesc2])).length
      = ([exDesc1, exDesc2] : List TauriRepositoryDescriptor).length := by
  have h := batch_result_order_and_no_badurl exNet exSettings [exDesc1, exDesc2]
    [1, 0] (by decide)
  exact ⟨h.1, h.2.1, h.2.2.1⟩
